import Mathlib

/-!
Verification of the git-recipes recipe-extraction subsystem.

This file gives a shallow embedding of the code in
`src/lib/recipes/scraper.ts`, `src/app/api/recipes/save/route.ts`,
`src/app/api/recipes/search/route.ts` and `src/lib/weaviate/client.ts`,
and proves the behavioural properties claimed of them.

Modelling conventions:
* JavaScript strings are Lean `String`s; regular-expression based
  operations on them are implemented character by character with the
  same semantics as the JS regexes used by the source.
* `fetch`, the DOM (cheerio) and `JSON.parse` are external to the
  repository; the network is modelled by a `FetchOutcome` oracle and a
  fetched page by the projections of the cheerio queries the code
  performs (`PageDoc`).  Parsed JSON-LD blocks are values of an
  explicit `JsonValue` type.
* Exceptions become `Except`; the error classes of the source become
  the constructors of `ScrapeError`.
-/

namespace GitRecipes

/-! ## JavaScript whitespace and text normalization (`cleanText`) -/

/-- The character class matched by the JavaScript regex `\s` (and removed
by `String.prototype.trim`): tab, LF, VT, FF, CR, space, NBSP, and the
Unicode space separators, line/paragraph separators and BOM. -/
def isJsWs (c : Char) : Bool :=
  decide (c.toNat = 9 ∨ c.toNat = 10 ∨ c.toNat = 11 ∨ c.toNat = 12 ∨
    c.toNat = 13 ∨ c.toNat = 32 ∨ c.toNat = 160 ∨ c.toNat = 5760 ∨
    (8192 ≤ c.toNat ∧ c.toNat ≤ 8202) ∨ c.toNat = 8232 ∨
    c.toNat = 8233 ∨ c.toNat = 8239 ∨ c.toNat = 8287 ∨
    c.toNat = 12288 ∨ c.toNat = 65279)

/-- Helper for `collapseWs`: `prevWs` records whether the previous
character belonged to the current whitespace run (in which case the
single replacement space for the run has already been emitted). -/
def collapseWsAux : Bool → List Char → List Char
  | _, [] => []
  | prevWs, c :: rest =>
    if isJsWs c then
      if prevWs then collapseWsAux true rest
      else ' ' :: collapseWsAux true rest
    else c :: collapseWsAux false rest

/-- `value.replace(/\s+/g, " ")`: collapse every maximal run of JS
whitespace to a single ordinary space. -/
def collapseWs (l : List Char) : List Char :=
  collapseWsAux false l

/-- `value.replace(/ /g, " ")`. -/
def replaceNbsp (l : List Char) : List Char :=
  l.map fun c => if c.toNat = 160 then ' ' else c

/-- `String.prototype.trim`: drop JS whitespace from both ends. -/
def trimJs (l : List Char) : List Char :=
  ((l.dropWhile isJsWs).reverse.dropWhile isJsWs).reverse

/-- `String.prototype.trim` on strings. -/
def trimS (s : String) : String :=
  String.mk (trimJs s.data)

/-- `cleanText` from `scraper.ts`: collapse whitespace runs to a single
space, replace non-breaking spaces, then trim. -/
def cleanText (s : String) : String :=
  String.mk (trimJs (replaceNbsp (collapseWs s.data)))

/-! ## JSON values (results of `JSON.parse` on JSON-LD blocks) -/

/-- A parsed JSON value.  Numbers are modelled as integers; no claim
depends on fractional values. -/
inductive JsonValue where
  | null : JsonValue
  | bool (b : Bool) : JsonValue
  | num (n : Int) : JsonValue
  | str (s : String) : JsonValue
  | arr (items : List JsonValue) : JsonValue
  | obj (fields : List (String × JsonValue)) : JsonValue

/-- JavaScript property read `o[k]` on a parsed JSON object, `none` for
`undefined`.  Objects produced by `JSON.parse` have unique keys, so the
first binding is the binding. -/
def jsonGet (fields : List (String × JsonValue)) (k : String) : Option JsonValue :=
  match fields with
  | [] => none
  | (k', v) :: rest => if k' = k then some v else jsonGet rest k

/-- JavaScript falsiness of a parsed JSON value (`!data`):
`null`, `false`, `0` and `""` are falsy. -/
def jsFalsy : JsonValue → Bool
  | .null => true
  | .bool b => !b
  | .num n => n = 0
  | .str s => s = ""
  | _ => false

/-- The nullish-coalescing operator `a ?? b` on property reads: `b` when
`a` is `undefined` or `null`. -/
def jsCoalesce (a b : Option JsonValue) : Option JsonValue :=
  match a with
  | none => b
  | some .null => b
  | some v => some v

/-! ## The WHATWG `URL` builtin, as used by `normalizeRecipeUrl`

The source calls `new URL(url)` and `parsed.toString()`.  The builtin is
modelled as follows, keeping exactly the behaviour the claims depend on:
leading/trailing C0-control-or-space stripping and interior
tab/newline removal (per the WHATWG preprocessing), scheme recognition
(an ASCII letter followed by letters, digits, `+`, `-` or `.`, up to the
first `:`), a lowercased `protocol`, and a serialization in which
control characters, spaces and non-ASCII characters are percent-encoded
(so the serialized URL never contains whitespace).  Host/path
canonicalization beyond this is not modelled; no claim depends on it. -/

/-- ASCII lowercasing of a single character, as `String.prototype.toLowerCase`
acts on the ASCII range. -/
def lowerChar (c : Char) : Char :=
  match c with
  | 'A' => 'a' | 'B' => 'b' | 'C' => 'c' | 'D' => 'd' | 'E' => 'e'
  | 'F' => 'f' | 'G' => 'g' | 'H' => 'h' | 'I' => 'i' | 'J' => 'j'
  | 'K' => 'k' | 'L' => 'l' | 'M' => 'm' | 'N' => 'n' | 'O' => 'o'
  | 'P' => 'p' | 'Q' => 'q' | 'R' => 'r' | 'S' => 's' | 'T' => 't'
  | 'U' => 'u' | 'V' => 'v' | 'W' => 'w' | 'X' => 'x' | 'Y' => 'y'
  | 'Z' => 'z'
  | c => c

def isAsciiAlpha (c : Char) : Bool :=
  (97 ≤ c.toNat && c.toNat ≤ 122) || (65 ≤ c.toNat && c.toNat ≤ 90)

/-- Characters allowed in a URL scheme after the first letter: ASCII
letters, digits, `+`, `-` and `.`. -/
def isSchemeChar (c : Char) : Bool :=
  isAsciiAlpha c || (48 ≤ c.toNat && c.toNat ≤ 57) ||
    c.toNat = 43 || c.toNat = 45 || c.toNat = 46

def hexDigit (n : Nat) : Char :=
  match n with
  | 0 => '0' | 1 => '1' | 2 => '2' | 3 => '3' | 4 => '4'
  | 5 => '5' | 6 => '6' | 7 => '7' | 8 => '8' | 9 => '9'
  | 10 => 'A' | 11 => 'B' | 12 => 'C' | 13 => 'D' | 14 => 'E'
  | _ => 'F'

/-- UTF-8 encoding of a Unicode scalar value. -/
def utf8Bytes (n : Nat) : List Nat :=
  if n < 128 then [n]
  else if n < 2048 then [192 + n / 64, 128 + n % 64]
  else if n < 65536 then [224 + n / 4096, 128 + n / 64 % 64, 128 + n % 64]
  else [240 + n / 262144, 128 + n / 4096 % 64, 128 + n / 64 % 64, 128 + n % 64]

/-- Percent-encode one character of the URL remainder when it is a
control character, a space, DEL or non-ASCII; pass it through raw
otherwise. -/
def encodeUrlChar (c : Char) : List Char :=
  if c.toNat ≤ 32 || 127 ≤ c.toNat then
    (utf8Bytes c.toNat).flatMap fun b => ['%', hexDigit (b / 16 % 16), hexDigit (b % 16)]
  else [c]

/-- A parsed URL: the lowercased `protocol` (scheme including the
trailing colon) and the raw remainder after the colon. -/
structure Url where
  protocol : String
  remainder : String
deriving DecidableEq

/-- The WHATWG input preprocessing of `new URL(input)`: strip leading
and trailing C0 controls and spaces, then remove interior tabs and
newlines. -/
def urlPreprocess (input : String) : List Char :=
  (((input.data.dropWhile fun c => c.toNat ≤ 32).reverse.dropWhile
      fun c => c.toNat ≤ 32).reverse.filter
    fun c => c.toNat ≠ 9 && c.toNat ≠ 10 && c.toNat ≠ 13)

/-- `new URL(input)`: preprocess, then require a scheme followed by `:`. -/
def urlParse (input : String) : Option Url :=
  match urlPreprocess input with
  | [] => none
  | c :: rest =>
    if isAsciiAlpha c then
      match rest.dropWhile isSchemeChar with
      | ':' :: tail =>
        some ⟨String.mk ((c :: rest.takeWhile isSchemeChar).map lowerChar ++ [':']),
          String.mk tail⟩
      | _ => none
    else none

/-- `url.toString()` (the href): lowercased scheme, colon, and the
remainder with whitespace-capable characters percent-encoded. -/
def urlToString (u : Url) : String :=
  u.protocol ++ String.mk (u.remainder.data.flatMap encodeUrlChar)

/-! ## Error classes of `scraper.ts` -/

/-- The recipe scraping errors.  `RecipeScrapeError` is the base class;
only its two subclasses are ever thrown, so they are the constructors.
Each carries the `message` and the HTTP `status` hint of the class. -/
inductive ScrapeError where
  | requestError (message : String) (status : Nat)
  | parseError (message : String) (status : Nat)
deriving DecidableEq

/-- `new RecipeScrapeRequestError(message, status)` (the code always
passes an explicit status). -/
def RecipeScrapeRequestError (message : String) (status : Nat) : ScrapeError :=
  .requestError message status

/-- `new RecipeScrapeParseError(message)` with its default status 422. -/
def RecipeScrapeParseError (message : String) : ScrapeError :=
  .parseError message 422

/-- The `status` property of a scrape error. -/
def ScrapeError.status : ScrapeError → Nat
  | .requestError _ s => s
  | .parseError _ s => s

/-- The `message` property of a scrape error. -/
def ScrapeError.message : ScrapeError → String
  | .requestError m _ => m
  | .parseError m _ => m

/-- `RecipeScrapeResult` from `types/recipe.ts` (and `RecipeSavePayload`,
which extends it without adding fields). -/
structure RecipeScrapeResult where
  title : String
  ingredients : List String
  sourceUrl : String
deriving DecidableEq

instance {ε α : Type} [DecidableEq ε] [DecidableEq α] : DecidableEq (Except ε α) := fun a b =>
  match a, b with
  | .ok x, .ok y =>
    if h : x = y then .isTrue (by rw [h]) else .isFalse fun hh => h (by cases hh; rfl)
  | .ok _, .error _ => .isFalse fun hh => by cases hh
  | .error _, .ok _ => .isFalse fun hh => by cases hh
  | .error e, .error f =>
    if h : e = f then .isTrue (by rw [h]) else .isFalse fun hh => h (by cases hh; rfl)

/-! ## `normalizeRecipeUrl` -/

/-- The body of the `try` block of `normalizeRecipeUrl`: `none` models a
throw.  The thrown values are irrelevant because the enclosing `catch`
has no filter and discards them — in particular the
`RecipeScrapeRequestError("Only HTTP(S) recipe URLs are supported.", 400)`
thrown on a bad scheme is itself caught and replaced, so it can never
escape `normalizeRecipeUrl`. -/
def normalizeRecipeUrlTry (url : String) : Option String :=
  match urlParse url with
  | none => none
  | some parsed =>
    if !(parsed.protocol = ("http:") || parsed.protocol = ("https:")) then none
    else some (urlToString parsed)

/-- `normalizeRecipeUrl` from `scraper.ts`: validate and canonicalize,
mapping every failure to a 400 request error. -/
def normalizeRecipeUrl (url : String) : Except ScrapeError String :=
  match normalizeRecipeUrlTry url with
  | some s => .ok s
  | none => .error (RecipeScrapeRequestError ("Invalid recipe URL provided.") 400)

/-! ## The fetched page

`cheerio.load` is an external library; a loaded page is modelled by the
results of exactly the queries `scraper.ts` performs on it. -/

/-- A fetched, cheerio-parsed page. -/
structure PageDoc where
  /-- The parsed content of each JSON-LD script
  block, in document order; `none` when `JSON.parse` failed on it. -/
  jsonLdScripts : List (Option JsonValue)
  /-- `$("meta[property=og:title]").attr("content")` (single quotes of the source selector omitted). -/
  ogTitle : Option String
  /-- `$("meta[name=twitter:title]").attr("content")`. -/
  twitterTitle : Option String
  /-- `$("[itemprop=name]").first().text()` (empty when no match). -/
  itempropName : String
  /-- `$("h1").first().text()` (empty when no match). -/
  h1 : String
  /-- `$("title").first().text()` (empty when no match). -/
  titleTag : String
  /-- For a CSS selector, the `.text()` of each matched element in
  document order (`$(selector).toArray()`). -/
  sel : String → List String

/-- The outcome of the single `fetch` of the recipe page.  `finalUrl` is
the post-redirect response URL; the code never reads it.  `body` is
`none` when `response.text()` rejects. -/
inductive FetchOutcome where
  | networkFailure : FetchOutcome
  | response (ok : Bool) (status : Nat) (finalUrl : String) (body : Option PageDoc) : FetchOutcome

/-- `fetchRecipeHtml` from `scraper.ts`: classify transport failures and
non-success statuses, passing 4xx statuses through and coercing every
other failure to 502. -/
def fetchRecipeHtml (env : FetchOutcome) : Except ScrapeError PageDoc :=
  match env with
  | .networkFailure =>
    .error (RecipeScrapeRequestError ("Failed to fetch the remote recipe content.") 502)
  | .response ok status _ body =>
    if !ok then
      .error (RecipeScrapeRequestError
        ("Recipe request failed with status " ++ toString status ++ ".")
        (if 400 ≤ status && status < 500 then status else 502))
    else
      match body with
      | none => .error (RecipeScrapeRequestError ("Unable to read the recipe response body.") 502)
      | some doc => .ok doc

/-! ## JSON-LD recipe discovery -/

/-- The fields of a JSON-LD object the code treats as a recipe
(`JsonLdRecipe` in the source is the object itself). -/
abbrev JsonLdRecipe := List (String × JsonValue)

/-- `isRecipeType` from `scraper.ts`: a string equal to "recipe" after
lowercasing, or an array containing such a string. -/
def isRecipeType : Option JsonValue → Bool
  | some (.str s) => String.mk (s.data.map lowerChar) = ("recipe")
  | some (.arr xs) =>
    xs.any fun v =>
      match v with
      | .str s => String.mk (s.data.map lowerChar) = ("recipe")
      | _ => false
  | _ => false

theorem sizeOf_jsonGet {fields : List (String × JsonValue)} {k : String}
    {v : JsonValue} (h : jsonGet fields k = some v) : sizeOf v < sizeOf fields := by
  induction fields with
  | nil => simp [jsonGet] at h
  | cons p rest ih =>
    obtain ⟨k', v'⟩ := p
    rw [jsonGet] at h
    by_cases hk : k' = k
    · simp [hk] at h
      subst h
      simp
      omega
    · simp [hk] at h
      have := ih h
      simp
      omega

/-- `findRecipeEntry` from `scraper.ts`: depth-first search through
arrays and `@graph` wrappers for an object whose `@type` designates a
recipe.  The `if (!data) return null` guard of the source only excludes
primitives, which fall to the final case here. -/
def findRecipeEntry : JsonValue → Option JsonLdRecipe
  | .arr items => items.attach.findSome? fun x => findRecipeEntry x.1
  | .obj fields =>
    if isRecipeType (jsonGet fields ("@type")) then some fields
    else
      match hg : jsonGet fields ("@graph") with
      | some (.arr g) => findRecipeEntry (.arr g)
      | _ => none
  | _ => none
termination_by v => sizeOf v
decreasing_by
  · have hm := x.2
    have := List.sizeOf_lt_of_mem hm
    simp
    omega
  · have := sizeOf_jsonGet hg
    simp at this ⊢
    omega

/-- `extractRecipeFromJsonLd` from `scraper.ts`: first JSON-LD block
yielding a recipe entry.  Unparsable blocks and falsy parse results are
skipped (`if (!parsed) continue`). -/
def extractRecipeFromJsonLd (doc : PageDoc) : Option JsonLdRecipe :=
  doc.jsonLdScripts.findSome? fun parsed =>
    match parsed with
    | none => none
    | some v => if jsFalsy v then none else findRecipeEntry v

/-! ## Title resolution -/

/-- Read a string-typed field of the recipe object, with `?? ""` for a
missing or null value (the `JsonLdRecipe` interface of the source declares
`name`, `headline` and `title` as optional strings). -/
def strField (r : JsonLdRecipe) (k : String) : String :=
  match jsonGet r k with
  | some (.str s) => s
  | _ => ""

/-- `resolveTitle` from `scraper.ts`: collect the candidates in order,
clean each, drop the empty ones and take the first (`cleaned[0] ?? ""`). -/
def resolveTitle (doc : PageDoc) (recipe : Option JsonLdRecipe) : String :=
  let candidates : List String :=
    (match recipe with
     | some r => [strField r ("name"), strField r ("headline"), strField r ("title")]
     | none => []) ++
    [doc.ogTitle.getD (""), doc.twitterTitle.getD (""), doc.itempropName,
     doc.h1, doc.titleTag]
  let cleaned := (candidates.map cleanText).filter fun value => value.length > 0
  cleaned.headD ("")

/-! ## Ingredient resolution -/

/-- `value.split(/\r?\n/)`: split at each newline, optionally preceded
by a carriage return. -/
def splitLinesJs : List Char → List (List Char)
  | [] => [[]]
  | '\r' :: '\n' :: rest => [] :: splitLinesJs rest
  | '\n' :: rest => [] :: splitLinesJs rest
  | c :: rest =>
    match splitLinesJs rest with
    | [] => [[c]]
    | s :: ss => (c :: s) :: ss

/-- `segment.split(/\s{2,}/)`: split at each maximal run of at least
two whitespace characters. -/
def splitWs2 : List Char → List (List Char)
  | [] => [[]]
  | [c] => [[c]]
  | c1 :: c2 :: rest =>
    if isJsWs c1 && isJsWs c2 then [] :: splitWs2 (rest.dropWhile isJsWs)
    else
      match splitWs2 (c2 :: rest) with
      | [] => [[c1]]
      | s :: ss => (c1 :: s) :: ss
termination_by l => l.length
decreasing_by
  · simp only [List.length_cons]
    have := (List.dropWhile_suffix (l := rest) isJsWs).length_le
    omega
  · simp

/-- The `push` closure of `normalizeIngredientList`: accept only
strings, clean them, and keep the non-empty results. -/
def pushClean (v : JsonValue) : List String :=
  match v with
  | .str s =>
    let cleaned := cleanText s
    if cleaned.length > 0 then [cleaned] else []
  | _ => []

/-- One array element of the ingredient value: an object carrying an
`item` property contributes that property, anything else contributes
itself (and survives only if it is a string). -/
def normalizeIngredientEntry (item : JsonValue) : List String :=
  match item with
  | .obj fields =>
    match jsonGet fields ("item") with
    | some v => pushClean v
    | none => pushClean (.obj fields)
  | other => pushClean other

/-- `normalizeIngredientList` from `scraper.ts`.  The argument is the
coalesced ingredient field; `none` models `undefined`. -/
def normalizeIngredientList : Option JsonValue → List String
  | some (.arr items) => items.flatMap normalizeIngredientEntry
  | some (.str s) =>
    ((splitLinesJs s.data).map splitWs2).flatten.flatMap fun seg =>
      pushClean (.str (String.mk seg))
  | _ => []

/-- `recipe.recipeIngredient ?? recipe.ingredients ?? recipe.ingredient`. -/
def rawIngredientValue (r : JsonLdRecipe) : Option JsonValue :=
  jsCoalesce (jsonGet r ("recipeIngredient"))
    (jsCoalesce (jsonGet r ("ingredients")) (jsonGet r ("ingredient")))

/-- The fixed selector list of `extractIngredientsFromDom`, in source
order. -/
def ingredientSelectors : List String :=
  ["[itemprop=\x27recipeIngredient\x27]",
   "[itemprop=\x27ingredients\x27]",
   "ul[class*=\x27ingredient\x27] li",
   "ol[class*=\x27ingredient\x27] li",
   "li[class*=\x27ingredient\x27]",
   "li[id*=\x27ingredient\x27]"]

/-- The selector loop of `extractIngredientsFromDom`: push the cleaned,
non-empty texts of the matches of the current selector onto `values` and
stop as soon as `values` is non-empty. -/
def extractLoop (doc : PageDoc) : List String → List String → List String
  | [], values => values
  | s :: rest, values =>
    let values := values ++ ((doc.sel s).map cleanText).filter fun t => t.length > 0
    if values.length > 0 then values else extractLoop doc rest values

/-- `extractIngredientsFromDom` from `scraper.ts`. -/
def extractIngredientsFromDom (doc : PageDoc) : List String :=
  extractLoop doc ingredientSelectors []

/-- `Set.prototype.add` on a JavaScript `Set`, modelled as its list of
elements in insertion order. -/
def setAdd (acc : List String) (x : String) : List String :=
  if x ∈ acc then acc else acc ++ [x]

/-- `resolveIngredients` from `scraper.ts`: structured-data ingredients
first, the DOM fallback only when they yield an empty set, with the
insertion-ordered `Set` providing deduplication (`Array.from(seen)`). -/
def resolveIngredients (doc : PageDoc) (recipe : Option JsonLdRecipe) : List String :=
  let seen : List String := []
  let seen :=
    match recipe with
    | some r => (normalizeIngredientList (rawIngredientValue r)).foldl setAdd seen
    | none => seen
  if seen.length = 0 then (extractIngredientsFromDom doc).foldl setAdd seen
  else seen

/-! ## The extractor -/

/-- `scrapeRecipeFromUrl` from `scraper.ts`, with the network modelled
by the `FetchOutcome` oracle. -/
def scrapeRecipeFromUrl (sourceUrl : String) (env : FetchOutcome) :
    Except ScrapeError RecipeScrapeResult := do
  let normalizedUrl ← normalizeRecipeUrl sourceUrl
  let doc ← fetchRecipeHtml env
  let recipeFromJsonLd := extractRecipeFromJsonLd doc
  let title := resolveTitle doc recipeFromJsonLd
  let ingredients := resolveIngredients doc recipeFromJsonLd
  if title = "" || ingredients.length = 0 then
    .error (RecipeScrapeParseError
      ("Unable to extract recipe title and ingredients from the provided URL."))
  else
    .ok ⟨title, ingredients, normalizedUrl⟩

/-! ## The save endpoint (`src/app/api/recipes/save/route.ts`) -/

/-- `RecipeSavePayload` extends `RecipeScrapeResult` without adding
fields. -/
abbrev RecipeSavePayload := RecipeScrapeResult

/-- `PayloadValidationResult` from `save/route.ts`. -/
inductive PayloadValidationResult where
  | valid (recipe : RecipeSavePayload)
  | invalid (errorMessage : String)
deriving DecidableEq

/-- `typeof value === "object"` for a (non-undefined) JSON value:
objects, arrays and `null`; `null` is handled by the falsiness check
before this one is reached. -/
def jsIsObjectLike : JsonValue → Bool
  | .obj _ => true
  | .arr _ => true
  | _ => false

/-- The named properties of a JSON value: the fields of an object; arrays
(also `typeof "object"`) have none of the accessed names. -/
def jsObjFields : JsonValue → List (String × JsonValue)
  | .obj fields => fields
  | _ => []

/-- `isStringArray` from `save/route.ts`: every entry is a string with
non-empty trim. -/
def isStringArray (value : List JsonValue) : Bool :=
  value.all fun entry =>
    match entry with
    | .str s => (trimS s).length > 0
    | _ => false

/-- `validateRecipePayload` from `save/route.ts`.  The argument is the
`recipe` field of the request body; `none` models `undefined`.  The
three guard conditions of the source are rendered as the pattern match
(title a string, ingredients an array, sourceUrl a string) plus the
non-empty-trim checks; any failure among them yields the same second
error message, exactly as the single disjunction of the source does. -/
def validateRecipePayload (value : Option JsonValue) : PayloadValidationResult :=
  match value with
  | none =>
    .invalid ("The `recipe` field must be an object containing title, ingredients, and sourceUrl.")
  | some v =>
    if jsFalsy v || !jsIsObjectLike v then
      .invalid ("The `recipe` field must be an object containing title, ingredients, and sourceUrl.")
    else
      let record := jsObjFields v
      match jsonGet record ("title"), jsonGet record ("ingredients"),
          jsonGet record ("sourceUrl") with
      | some (.str title), some (.arr ingredients), some (.str sourceUrl) =>
        if !((trimS title).length > 0) || !((trimS sourceUrl).length > 0) then
          .invalid ("The `recipe` field must include non-empty title, ingredients[], and sourceUrl values.")
        else if !isStringArray ingredients then
          .invalid ("All ingredients must be strings.")
        else
          .valid ⟨trimS title,
            ingredients.map fun i =>
              match i with
              | .str s => trimS s
              | _ => "",
            trimS sourceUrl⟩
      | _, _, _ =>
        .invalid ("The `recipe` field must include non-empty title, ingredients[], and sourceUrl values.")

/-- What the save endpoint does with a syntactically valid JSON body:
reject with 400, or forward the validated recipe to the store. -/
inductive SaveRouteAction where
  | reject (status : Nat) (message : String)
  | forward (recipe : RecipeSavePayload)
deriving DecidableEq

/-- The decision step of the `POST` handler of the save endpoint (after JSON
parsing, before the store call). -/
def saveRoutePOST (body : JsonValue) : SaveRouteAction :=
  let recipeCandidate := jsonGet (jsObjFields body) ("recipe")
  match validateRecipePayload recipeCandidate with
  | .invalid m => .reject 400 m
  | .valid r => .forward r

/-! ## The scrape endpoint (`src/app/api/recipes/scrape/route.ts`) -/

/-- The HTTP status and error body the `POST` handler of the scrape endpoint
chooses for an extractor outcome: `error.status` for either scrape
error class, 200 on success.  (The generic 500 branch is for foreign
exceptions, which the embedding has none of.) -/
def scrapeRouteRespond (outcome : Except ScrapeError RecipeScrapeResult) :
    Nat × Option String :=
  match outcome with
  | .ok _ => (200, none)
  | .error (.requestError m s) => (s, some m)
  | .error (.parseError m s) => (s, some m)

/-! ## The store client (`src/lib/weaviate/client.ts`) -/

/-- `escapeGraphQLString` from `client.ts`:
`value.replace(/["\\]/g, "\\$&").replace(/\n/g, "\\n")`. -/
def escapeGraphQLString (value : String) : String :=
  let pass1 := value.data.flatMap fun c => if c = '"' || c = '\\' then ['\\', c] else [c]
  String.mk (pass1.flatMap fun c => if c = '\n' then ['\\', 'n'] else [c])

/-- The GraphQL template text of `searchRecipes` before the
interpolation site (with `WEAVIATE_RECIPE_CLASS = "Recipe"`). -/
def searchQueryHead : String :=
  "\n          \x7b\n            Get \x7b\n              Recipe(\n                hybrid: \x7b\n                  query: \""

/-- The GraphQL template text of `searchRecipes` after the
interpolation site. -/
def searchQueryTail : String :=
  "\"\n                \x7d\n                limit: 20\n              ) \x7b\n                title\n                ingredients\n                sourceUrl\n                _additional \x7b\n                  id\n                  score\n                \x7d\n              \x7d\n            \x7d\n          \x7d\n        "

/-- The GraphQL query string `searchRecipes` builds for a (non-blank,
already trimmed) query. -/
def searchGraphQLBody (trimmedQuery : String) : String :=
  searchQueryHead ++ escapeGraphQLString trimmedQuery ++ searchQueryTail

/-- The GraphQL request `searchRecipes` issues: `none` when the trimmed
query is empty (the code returns `[]` before any network access),
otherwise the query string sent to the store. -/
def searchRecipesRequest (query : String) : Option String :=
  let trimmedQuery := trimS query
  if trimmedQuery = "" then none
  else some (searchGraphQLBody trimmedQuery)

/-- `searchRecipes` from `client.ts`, with the GraphQL endpoint of the store
modelled as a function from the request body to the processed result
list (the response-mapping glue), and the tracing wrapper — which
passes the result of the wrapped operation through — as identity. -/
def searchRecipes {α : Type} (query : String) (net : String → List α) : List α :=
  match searchRecipesRequest query with
  | none => []
  | some body => net body

/-! ## Specification-side definitions

These follow the wording of the spec/claims (not the source) and are
compared with the source-derived definitions above. -/

/-- Claim wording (C4): "the first candidate whose whitespace-normalized
form is non-empty … and the empty string if all candidates normalize to
empty". -/
def firstNonEmptyClean : List String → String
  | [] => ""
  | c :: rest => if cleanText c = "" then firstNonEmptyClean rest else cleanText c

/-- Claim wording (C4): the title candidates "in this exact order: the
structured-data name, headline and title fields; then the
og:title meta tag; then the twitter:title meta tag; then the first
element marked itemprop name; then the first h1 heading; then the page
title tag". -/
def claimedTitleCandidates (doc : PageDoc) (recipe : Option JsonLdRecipe) : List String :=
  (match recipe with
   | some r => [strField r ("name"), strField r ("headline"), strField r ("title")]
   | none => []) ++
  [doc.ogTitle.getD (""), doc.twitterTitle.getD (""), doc.itempropName, doc.h1, doc.titleTag]

/-- Claim wording (C6): keep "each distinct cleaned string exactly once
… keeping the first occurrence of each string in order". -/
def firstSeenDedup : List String → List String
  | [] => []
  | x :: rest => x :: firstSeenDedup (rest.filter fun y => y ≠ x)
termination_by l => l.length
decreasing_by
  simp only [List.length_cons]
  exact Nat.lt_succ_of_le (rest.length_filter_le _)

/-- The ingredient strings the structured-data path yields for a (found
or absent) recipe entry. -/
def structuredIngredients : Option JsonLdRecipe → List String
  | some r => normalizeIngredientList (rawIngredientValue r)
  | none => []

/-- Claim wording (C6): the source list the returned ingredients are a
deduplication of — the structured-data list, or the DOM fallback when
the former is empty. -/
def ingredientSource (doc : PageDoc) (recipe : Option JsonLdRecipe) : List String :=
  if structuredIngredients recipe = [] then extractIngredientsFromDom doc
  else structuredIngredients recipe

/-- Amended claim wording (C5), selector loop: try the selectors in
order and return the normalized non-empty texts of the first selector
that has at least one such text. -/
def domFallbackGo (doc : PageDoc) : List String → List String
  | [] => []
  | s :: rest =>
    let items := ((doc.sel s).map cleanText).filter fun t => t.length > 0
    if items = [] then domFallbackGo doc rest else items

/-- Amended claim wording (C5): the DOM fallback returns the normalized
non-empty texts of the first selector that has at least one such text,
trying the six selectors in their fixed order. -/
def domFallbackSpec (doc : PageDoc) : List String :=
  domFallbackGo doc ingredientSelectors

/-- A GraphQL string body is safely escaped: reading left to right,
every backslash escapes the following character, and no unescaped
double quote or raw newline occurs. -/
def gqlStringSafe : List Char → Bool
  | [] => true
  | '\\' :: _ :: rest => gqlStringSafe rest
  | '"' :: _ => false
  | '\n' :: _ => false
  | _ :: rest => gqlStringSafe rest

/-- The classification of a scrape error visible to a caller without
reading the message: which error class it is, plus the carried status. -/
def errKind (e : ScrapeError) : Bool × Nat :=
  (match e with
   | .parseError _ _ => true
   | .requestError _ _ => false,
   e.status)

/-- The JSON encoding of an extractor record, as the save endpoint
receives it in the `recipe` field of its request body. -/
def recipeAsJson (r : RecipeScrapeResult) : JsonValue :=
  .obj [(("title"), .str r.title), (("ingredients"), .arr (r.ingredients.map .str)),
    (("sourceUrl"), .str r.sourceUrl)]

/-! ## Concrete pages and values used to instantiate the theorems -/

/-- A selector function matching nothing. -/
def noMatches : String → List String := fun _ => []

/-- A page with no metadata and no matches at all. -/
def blankDoc : PageDoc :=
  ⟨[], none, none, "", "", "", noMatches⟩

/-- The JSON-LD block of the unit-test page of the repo itself, with a
duplicated ingredient added to exercise deduplication. -/
def pancakesJson : JsonValue :=
  .obj [(("@context"), .str ("https://schema.org")), (("@type"), .str ("Recipe")),
    (("name"), .str ("Test Pancakes")),
    (("recipeIngredient"), .arr [.str ("1 cup flour"), .str ("2 eggs"), .str ("1 cup flour")])]

/-- The fields of the recipe entry inside `pancakesJson`. -/
def pancakesFields : JsonLdRecipe :=
  [(("@context"), .str ("https://schema.org")), (("@type"), .str ("Recipe")),
    (("name"), .str ("Test Pancakes")),
    (("recipeIngredient"), .arr [.str ("1 cup flour"), .str ("2 eggs"), .str ("1 cup flour")])]

/-- A page carrying only the pancakes JSON-LD block. -/
def pancakesDoc : PageDoc :=
  ⟨[some pancakesJson], none, none, "", "", "", noMatches⟩

/-- A page where the first ingredient selector matches one element whose
text is pure whitespace, and the third selector matches a real
ingredient. -/
def domDocC5 : PageDoc :=
  ⟨[], none, none, "", "", "", fun s =>
    if s = ("[itemprop=\x27recipeIngredient\x27]") then ["   "]
    else if s = ("ul[class*=\x27ingredient\x27] li") then ["1 egg"]
    else []⟩

/-- A page whose only title candidate is a twitter:title needing
whitespace normalization (the og:title candidate before it is absent,
contributing an empty candidate). -/
def titleDoc : PageDoc :=
  ⟨[], none, some ("  Best   Soup  "), "", "", "", noMatches⟩

/-! ## Helper lemmas: strings, trimming, cleaning -/

theorem dropWhile_eq_self_of_all {α} {p : α → Bool} {l : List α}
    (h : ∀ c ∈ l, p c = false) : l.dropWhile p = l := by
  cases l with
  | nil => rfl
  | cons a t => simp [List.dropWhile_cons, h a (by simp)]

theorem head?_dropWhile_not {α} {p : α → Bool} {l : List α} {h : α}
    (hh : (l.dropWhile p).head? = some h) : p h = false := by
  induction l with
  | nil => simp at hh
  | cons a t ih =>
    rw [List.dropWhile_cons] at hh
    by_cases hp : p a
    · rw [if_pos hp] at hh
      exact ih hh
    · rw [if_neg hp] at hh
      simp at hh
      subst hh
      simpa using hp

theorem dropWhile_idem {α} (p : α → Bool) (l : List α) :
    (l.dropWhile p).dropWhile p = l.dropWhile p := by
  cases hh : (l.dropWhile p).head? with
  | none =>
    rw [List.head?_eq_none_iff.mp hh]
    rfl
  | some a =>
    have hpa : p a = false := head?_dropWhile_not hh
    obtain ⟨t, ht⟩ : ∃ t, l.dropWhile p = a :: t := by
      cases he : l.dropWhile p with
      | nil => rw [he] at hh; simp at hh
      | cons b t =>
        rw [he] at hh
        simp at hh
        exact ⟨t, by rw [hh]⟩
    rw [ht, List.dropWhile_cons, if_neg (by simp [hpa])]

theorem getLast?_append_right {α} {l₁ l₂ : List α} (h : l₂ ≠ []) :
    (l₁ ++ l₂).getLast? = l₂.getLast? := by
  rw [List.getLast?_eq_head?_reverse, List.getLast?_eq_head?_reverse,
    List.reverse_append]
  cases hr : l₂.reverse with
  | nil => exact absurd (List.reverse_eq_nil_iff.mp hr) h
  | cons a t => simp

theorem trimJs_idem (l : List Char) : trimJs (trimJs l) = trimJs l := by
  unfold trimJs
  set a := l.dropWhile isJsWs with ha
  set m := a.reverse.dropWhile isJsWs with hm
  have hfront : m.reverse.dropWhile isJsWs = m.reverse := by
    cases hmr : m.reverse with
    | nil => simp
    | cons c t =>
      have hlast : m.getLast? = some c := by
        rw [List.getLast?_eq_head?_reverse, hmr]
        rfl
      have hmne : m ≠ [] := by
        intro h
        rw [h] at hmr
        simp at hmr
      obtain ⟨pre, hpre⟩ : ∃ pre, a.reverse = pre ++ m := by
        obtain ⟨t', ht'⟩ := List.dropWhile_suffix (l := a.reverse) isJsWs
        exact ⟨t', (hm ▸ ht').symm⟩
      have hlast2 : a.reverse.getLast? = some c := by
        rw [hpre, getLast?_append_right hmne, hlast]
      have hheada : a.head? = some c := by
        rw [List.getLast?_eq_head?_reverse, List.reverse_reverse] at hlast2
        exact hlast2
      have hcws : isJsWs c = false := head?_dropWhile_not (ha ▸ hheada)
      rw [List.dropWhile_cons, if_neg (by simp [hcws])]
  rw [hfront, List.reverse_reverse, hm, dropWhile_idem]

theorem trimS_cleanText (s : String) : trimS (cleanText s) = cleanText s := by
  unfold trimS cleanText
  rw [show (String.mk (trimJs (replaceNbsp (collapseWs s.data)))).data
      = trimJs (replaceNbsp (collapseWs s.data)) from rfl, trimJs_idem]

theorem string_length_pos {s : String} (h : s ≠ "") : s.length > 0 := by
  obtain ⟨l⟩ := s
  cases l with
  | nil => exact absurd rfl h
  | cons c t => simp [String.length]

theorem string_ne_empty_of_length_pos {s : String} (h : s.length > 0) : s ≠ "" := by
  intro he
  rw [he] at h
  simp [String.length] at h

/-! ## Helper lemmas: the insertion-ordered set and deduplication -/

theorem firstSeenDedup_cons (x : String) (rest : List String) :
    firstSeenDedup (x :: rest) = x :: firstSeenDedup (rest.filter fun y => y ≠ x) := by
  rw [firstSeenDedup]

theorem foldl_setAdd_eq (xs : List String) (acc : List String) :
    xs.foldl setAdd acc = acc ++ firstSeenDedup (xs.filter fun y => decide (y ∉ acc)) := by
  induction xs generalizing acc with
  | nil => simp [firstSeenDedup]
  | cons x t ih =>
    rw [List.foldl_cons]
    by_cases hx : x ∈ acc
    · rw [show setAdd acc x = acc from by simp [setAdd, hx], ih, List.filter_cons]
      simp [hx]
    · rw [show setAdd acc x = acc ++ [x] from by simp [setAdd, hx], ih, List.filter_cons,
        if_pos (show decide (x ∉ acc) = true by simp [hx])]
      rw [firstSeenDedup_cons, List.filter_filter, List.append_assoc]
      simp only [List.cons_append, List.nil_append]
      congr 2
      congr 1
      apply List.filter_congr
      intro y _
      simp [List.mem_append]
      exact Bool.and_comm _ _

theorem foldl_setAdd_nil (xs : List String) :
    xs.foldl setAdd [] = firstSeenDedup xs := by
  rw [foldl_setAdd_eq]
  simp

theorem firstSeenDedup_eq_nil_iff (l : List String) :
    firstSeenDedup l = [] ↔ l = [] := by
  cases l with
  | nil => simp [firstSeenDedup]
  | cons x t => simp [firstSeenDedup_cons]

theorem firstSeenDedup_sublist (l : List String) : List.Sublist (firstSeenDedup l) l := by
  induction l using firstSeenDedup.induct with
  | case1 => simp [firstSeenDedup]
  | case2 x rest ih =>
    rw [firstSeenDedup_cons]
    exact (ih.trans (List.filter_sublist _)).cons₂ x

theorem count_firstSeenDedup (l : List String) (x : String) :
    (firstSeenDedup l).count x = if x ∈ l then 1 else 0 := by
  induction l using firstSeenDedup.induct with
  | case1 => simp [firstSeenDedup]
  | case2 y rest ih =>
    rw [firstSeenDedup_cons, List.count_cons, ih]
    by_cases hxy : x = y
    · subst hxy
      simp
    · have hyx : ¬y = x := fun h => hxy h.symm
      simp [hxy, hyx, List.mem_filter]

theorem mem_firstSeenDedup (l : List String) (x : String) :
    x ∈ firstSeenDedup l ↔ x ∈ l := by
  constructor
  · exact fun h => (firstSeenDedup_sublist l).mem h
  · intro h
    have := count_firstSeenDedup l x
    rw [if_pos h] at this
    exact List.count_pos_iff.mp (by omega)

/-! ## Helper lemmas: title and ingredient resolution -/

theorem firstNonEmptyClean_headD (xs : List String) :
    ((xs.map cleanText).filter fun v => v.length > 0).headD ("") = firstNonEmptyClean xs := by
  induction xs with
  | nil => rfl
  | cons c t ih =>
    rw [List.map_cons, List.filter_cons, firstNonEmptyClean]
    by_cases h : cleanText c = ""
    · rw [if_pos h, if_neg (by simp [h])]
      exact ih
    · rw [if_neg h, if_pos (by simpa using string_length_pos h)]
      rfl

theorem resolveTitle_eq_spec (doc : PageDoc) (r : Option JsonLdRecipe) :
    resolveTitle doc r = firstNonEmptyClean (claimedTitleCandidates doc r) := by
  rw [show resolveTitle doc r
      = (((claimedTitleCandidates doc r).map cleanText).filter fun v => v.length > 0).headD ("")
      from rfl]
  exact firstNonEmptyClean_headD _

theorem firstNonEmptyClean_shape (xs : List String) :
    firstNonEmptyClean xs = "" ∨ ∃ c, firstNonEmptyClean xs = cleanText c := by
  induction xs with
  | nil => exact Or.inl rfl
  | cons c t ih =>
    rw [firstNonEmptyClean]
    by_cases h : cleanText c = ""
    · rw [if_pos h]
      exact ih
    · rw [if_neg h]
      exact Or.inr ⟨c, rfl⟩

theorem extractLoop_eq_go (doc : PageDoc) (sels : List String) :
    extractLoop doc sels [] = domFallbackGo doc sels := by
  induction sels with
  | nil => rfl
  | cons s rest ih =>
    rw [extractLoop, domFallbackGo]
    by_cases h : ((doc.sel s).map cleanText).filter (fun t => t.length > 0) = []
    · simp [h, ih]
    · have hl : (([] : List String)
          ++ ((doc.sel s).map cleanText).filter (fun t => t.length > 0)).length > 0 := by
        simp [List.length_pos, h]
      simp [h, hl]

theorem extractIngredientsFromDom_eq_spec (doc : PageDoc) :
    extractIngredientsFromDom doc = domFallbackSpec doc :=
  extractLoop_eq_go doc ingredientSelectors

theorem resolveIngredients_eq_dedup (doc : PageDoc) (r : Option JsonLdRecipe) :
    resolveIngredients doc r = firstSeenDedup (ingredientSource doc r) := by
  unfold resolveIngredients ingredientSource
  cases r with
  | none =>
    simp only [structuredIngredients, List.foldl_nil]
    simp [foldl_setAdd_nil]
  | some rec =>
    simp only [structuredIngredients]
    rw [foldl_setAdd_nil]
    by_cases hL : normalizeIngredientList (rawIngredientValue rec) = []
    · rw [hL]
      simp [firstSeenDedup, foldl_setAdd_nil]
    · have h2 : firstSeenDedup (normalizeIngredientList (rawIngredientValue rec)) ≠ [] :=
        fun h => hL ((firstSeenDedup_eq_nil_iff _).mp h)
      rw [if_neg (fun hh => h2 (List.length_eq_zero.mp hh)), if_neg hL]

theorem mem_pushClean {x : String} {v : JsonValue} (h : x ∈ pushClean v) :
    (∃ s, x = cleanText s) ∧ x.length > 0 := by
  cases v with
  | str s =>
    simp only [pushClean] at h
    split at h
    next hc =>
      simp at h
      subst h
      exact ⟨⟨s, rfl⟩, hc⟩
    next => simp at h
  | null => simp [pushClean] at h
  | bool b => simp [pushClean] at h
  | num n => simp [pushClean] at h
  | arr items => simp [pushClean] at h
  | obj fields => simp [pushClean] at h

theorem mem_normalizeIngredientEntry {x : String} {item : JsonValue}
    (h : x ∈ normalizeIngredientEntry item) :
    (∃ s, x = cleanText s) ∧ x.length > 0 := by
  cases item with
  | obj fields =>
    simp only [normalizeIngredientEntry] at h
    split at h
    · exact mem_pushClean h
    · exact mem_pushClean h
  | null => exact mem_pushClean (by simpa only [normalizeIngredientEntry] using h)
  | bool b => exact mem_pushClean (by simpa only [normalizeIngredientEntry] using h)
  | num n => exact mem_pushClean (by simpa only [normalizeIngredientEntry] using h)
  | str s => exact mem_pushClean (by simpa only [normalizeIngredientEntry] using h)
  | arr items => exact mem_pushClean (by simpa only [normalizeIngredientEntry] using h)

theorem mem_normalizeIngredientList {x : String} {v : Option JsonValue}
    (h : x ∈ normalizeIngredientList v) :
    (∃ s, x = cleanText s) ∧ x.length > 0 := by
  cases v with
  | none => simp [normalizeIngredientList] at h
  | some j =>
    cases j with
    | arr items =>
      simp only [normalizeIngredientList] at h
      rw [List.mem_flatMap] at h
      obtain ⟨item, _, hx⟩ := h
      exact mem_normalizeIngredientEntry hx
    | str s =>
      simp only [normalizeIngredientList] at h
      rw [List.mem_flatMap] at h
      obtain ⟨seg, _, hx⟩ := h
      exact mem_pushClean hx
    | null => simp [normalizeIngredientList] at h
    | bool b => simp [normalizeIngredientList] at h
    | num n => simp [normalizeIngredientList] at h
    | obj fields => simp [normalizeIngredientList] at h

theorem mem_cleanFilter {doc : PageDoc} {s : String} {y : String}
    (hy : y ∈ ((doc.sel s).map cleanText).filter fun t => t.length > 0) :
    (∃ s', y = cleanText s') ∧ y.length > 0 := by
  rw [List.mem_filter] at hy
  obtain ⟨hm, hl⟩ := hy
  rw [List.mem_map] at hm
  obtain ⟨t, _, ht⟩ := hm
  exact ⟨⟨t, ht.symm⟩, by simpa using hl⟩

theorem mem_extractLoop {doc : PageDoc} {x : String} :
    ∀ (sels values : List String), x ∈ extractLoop doc sels values →
      x ∈ values ∨ ((∃ s, x = cleanText s) ∧ x.length > 0) := by
  intro sels
  induction sels with
  | nil => exact fun values h => Or.inl h
  | cons s rest ih =>
    intro values h
    rw [extractLoop] at h
    split at h
    · rw [List.mem_append] at h
      rcases h with h | h
      · exact Or.inl h
      · exact Or.inr (mem_cleanFilter h)
    · rcases ih _ h with h' | h'
      · rw [List.mem_append] at h'
        rcases h' with h' | h'
        · exact Or.inl h'
        · exact Or.inr (mem_cleanFilter h')
      · exact Or.inr h'

theorem mem_resolveIngredients {doc : PageDoc} {r : Option JsonLdRecipe} {x : String}
    (h : x ∈ resolveIngredients doc r) :
    (∃ s, x = cleanText s) ∧ x.length > 0 := by
  rw [resolveIngredients_eq_dedup, mem_firstSeenDedup] at h
  unfold ingredientSource at h
  split at h
  · rcases mem_extractLoop _ _ h with h' | h'
    · simp at h'
    · exact h'
  · cases r with
    | none => simp [structuredIngredients] at h
    | some rec => exact mem_normalizeIngredientList h

/-! ## Helper lemmas: the URL model -/

theorem isJsWs_false_of_bounds {c : Char} (h1 : 32 < c.toNat) (h2 : c.toNat < 127) :
    isJsWs c = false := by
  unfold isJsWs
  simp only [decide_eq_false_iff_not]
  omega

theorem hexDigit_not_ws (n : Nat) : isJsWs (hexDigit n) = false := by
  unfold hexDigit
  split <;> decide

theorem mem_encodeUrlChar_not_ws {c d : Char} (h : d ∈ encodeUrlChar c) :
    isJsWs d = false := by
  unfold encodeUrlChar at h
  split at h
  · rw [List.mem_flatMap] at h
    obtain ⟨b, _, hd⟩ := h
    simp at hd
    rcases hd with h | h | h <;> subst h
    · decide
    · exact hexDigit_not_ws _
    · exact hexDigit_not_ws _
  next hc =>
    simp at h hc
    subst h
    exact isJsWs_false_of_bounds (by omega) (by omega)

theorem isSchemeChar_of_alpha {c : Char} (h : isAsciiAlpha c = true) :
    isSchemeChar c = true := by
  unfold isSchemeChar
  simp [h]

theorem lowerChar_scheme_not_ws {c : Char} (h : isSchemeChar c = true) :
    isJsWs (lowerChar c) = false := by
  unfold lowerChar
  split <;> first
  | decide
  | · simp only [isSchemeChar, isAsciiAlpha, Bool.or_eq_true, Bool.and_eq_true,
        decide_eq_true_eq] at h
      exact isJsWs_false_of_bounds (by omega) (by omega)

theorem urlParse_some {input : String} {u : Url} (h : urlParse input = some u) :
    ∃ (c : Char) (rest tail : List Char), isAsciiAlpha c = true ∧
      u.protocol = String.mk ((c :: List.takeWhile isSchemeChar rest).map lowerChar ++ [':']) ∧
      u.remainder = String.mk tail := by
  unfold urlParse at h
  split at h
  · exact absurd h (by simp)
  next c rest _ =>
    split at h
    next halpha =>
      split at h
      next tail _ =>
        refine ⟨c, rest, tail, halpha, ?_, ?_⟩
        · rw [← Option.some_inj.mp h]
        · rw [← Option.some_inj.mp h]
      next => exact absurd h (by simp)
    next => exact absurd h (by simp)

theorem urlToString_wsFree {input : String} {u : Url} (h : urlParse input = some u) :
    (∀ d ∈ (urlToString u).data, isJsWs d = false) ∧ (urlToString u).data ≠ [] := by
  obtain ⟨c, rest, tail, halpha, hp, hr⟩ := urlParse_some h
  unfold urlToString
  constructor
  · intro d hd
    rw [String.data_append] at hd
    rcases List.mem_append.mp hd with hd | hd
    · rw [hp] at hd
      rcases List.mem_append.mp hd with hd | hd
      · rw [List.mem_map] at hd
        obtain ⟨c0, hc0, hdc⟩ := hd
        subst hdc
        apply lowerChar_scheme_not_ws
        rcases List.mem_cons.mp hc0 with h0 | h0
        · subst h0
          exact isSchemeChar_of_alpha halpha
        · exact List.mem_takeWhile_imp h0
      · simp at hd
        subst hd
        decide
    · rw [List.mem_flatMap] at hd
      obtain ⟨c0, _, hd⟩ := hd
      exact mem_encodeUrlChar_not_ws hd
  · rw [String.data_append, hp]
    simp

theorem trimS_eq_self_of_no_ws {s : String} (h : ∀ c ∈ s.data, isJsWs c = false) :
    trimS s = s := by
  unfold trimS trimJs
  rw [dropWhile_eq_self_of_all h, dropWhile_eq_self_of_all
    (fun c hc => h c (List.mem_reverse.mp hc)), List.reverse_reverse]

theorem normalizeRecipeUrl_ok {url nu : String} (h : normalizeRecipeUrl url = .ok nu) :
    ∃ u, urlParse url = some u ∧ nu = urlToString u ∧
      (u.protocol = "http:" ∨ u.protocol = "https:") := by
  unfold normalizeRecipeUrl at h
  cases htry : normalizeRecipeUrlTry url with
  | none =>
    rw [htry] at h
    exact absurd h (by simp)
  | some s =>
    rw [htry] at h
    have hs : s = nu := by
      cases h
      rfl
    unfold normalizeRecipeUrlTry at htry
    cases hu : urlParse url with
    | none =>
      rw [hu] at htry
      exact absurd htry (by simp)
    | some u =>
      rw [hu] at htry
      by_cases hproto : u.protocol = "http:" ∨ u.protocol = "https:"
      · have hcond : (!(u.protocol = ("http:") || u.protocol = ("https:"))) = false := by
          rcases hproto with h1 | h1 <;> simp [h1]
        simp only [hcond, Bool.false_eq_true, if_false, Option.some_inj] at htry
        exact ⟨u, rfl, by rw [← hs, ← htry], hproto⟩
      · rw [not_or] at hproto
        have hcond : (!(u.protocol = ("http:") || u.protocol = ("https:"))) = true := by
          simp [hproto.1, hproto.2]
        simp only [hcond, if_true] at htry
        exact absurd htry (by simp)

/-- The canonicalized URL is already trimmed and non-empty, so the trim of the save
validator leaves it unchanged. -/
theorem normalizeRecipeUrl_trim {url nu : String} (h : normalizeRecipeUrl url = .ok nu) :
    trimS nu = nu ∧ nu.length > 0 := by
  obtain ⟨u, hp, hnu, _⟩ := normalizeRecipeUrl_ok h
  obtain ⟨hws, hne⟩ := urlToString_wsFree hp
  subst hnu
  refine ⟨trimS_eq_self_of_no_ws hws, ?_⟩
  apply string_length_pos
  intro he
  rw [he] at hne
  exact hne rfl

/-! ## Helper lemmas: GraphQL escaping -/

theorem escapeGraphQLString_eq (s : String) :
    escapeGraphQLString s = String.mk (s.data.flatMap fun c =>
      if c = '"' then ['\\', '"'] else if c = '\\' then ['\\', '\\']
      else if c = '\n' then ['\\', 'n'] else [c]) := by
  unfold escapeGraphQLString
  show String.mk ((s.data.flatMap fun c =>
      if c = '"' || c = '\\' then ['\\', c] else [c]).flatMap fun c =>
      if c = '\n' then ['\\', 'n'] else [c]) = _
  congr 1
  induction s.data with
  | nil => rfl
  | cons c t ih =>
    rw [List.flatMap_cons, List.flatMap_append, ih, List.flatMap_cons]
    congr 1
    by_cases h1 : c = '"'
    · subst h1
      rfl
    · by_cases h2 : c = '\\'
      · subst h2
        rfl
      · by_cases h3 : c = '\n'
        · subst h3
          rfl
        · simp [h1, h2, h3]

theorem gqlStringSafe_cons_other {c : Char} {r : List Char}
    (h1 : c ≠ '\\') (h2 : c ≠ '"') (h3 : c ≠ '\n') :
    gqlStringSafe (c :: r) = gqlStringSafe r := by
  rw [gqlStringSafe.eq_def]
  split <;> simp_all

theorem gqlStringSafe_escape (s : String) :
    gqlStringSafe (escapeGraphQLString s).data = true := by
  rw [escapeGraphQLString_eq]
  show gqlStringSafe (s.data.flatMap _) = true
  induction s.data with
  | nil => rfl
  | cons c t ih =>
    rw [List.flatMap_cons]
    by_cases h1 : c = '"'
    · subst h1
      simpa using ih
    · by_cases h2 : c = '\\'
      · subst h2
        simpa using ih
      · by_cases h3 : c = '\n'
        · subst h3
          simpa using ih
        · simp only [h1, h2, h3, if_false]
          rw [List.singleton_append, gqlStringSafe_cons_other h2 h1 h3]
          exact ih

/-! ## Helper lemmas: the extractor pipeline -/

theorem scrape_ok_env {url nu : String} {status : Nat} {finalUrl : String} {doc : PageDoc}
    (hu : normalizeRecipeUrl url = .ok nu) :
    scrapeRecipeFromUrl url (.response true status finalUrl (some doc)) =
      if resolveTitle doc (extractRecipeFromJsonLd doc) = ""
          || (resolveIngredients doc (extractRecipeFromJsonLd doc)).length = 0 then
        .error (RecipeScrapeParseError
          ("Unable to extract recipe title and ingredients from the provided URL."))
      else
        .ok ⟨resolveTitle doc (extractRecipeFromJsonLd doc),
          resolveIngredients doc (extractRecipeFromJsonLd doc), nu⟩ := by
  unfold scrapeRecipeFromUrl
  rw [hu]
  rfl

theorem scrape_requestError {url : String} {env : FetchOutcome} {e : ScrapeError}
    (he : normalizeRecipeUrl url = .error e) :
    scrapeRecipeFromUrl url env = .error e := by
  unfold scrapeRecipeFromUrl
  rw [he]
  rfl

theorem firstNonEmptyClean_append_skip {pre : List String} {l : List String}
    (h : ∀ d ∈ pre, cleanText d = "") :
    firstNonEmptyClean (pre ++ l) = firstNonEmptyClean l := by
  induction pre with
  | nil => rfl
  | cons d t ih =>
    rw [List.cons_append, firstNonEmptyClean, if_pos (h d (by simp))]
    exact ih fun d' hd' => h d' (by simp [hd'])

theorem firstNonEmptyClean_all_empty {l : List String}
    (h : ∀ d ∈ l, cleanText d = "") : firstNonEmptyClean l = "" := by
  induction l with
  | nil => rfl
  | cons d t ih =>
    rw [firstNonEmptyClean, if_pos (h d (by simp))]
    exact ih fun d' hd' => h d' (by simp [hd'])

theorem scrape_ok_inv {url : String} {env : FetchOutcome} {r : RecipeScrapeResult}
    (h : scrapeRecipeFromUrl url env = .ok r) :
    normalizeRecipeUrl url = .ok r.sourceUrl ∧
    ∃ doc : PageDoc,
      r.title = resolveTitle doc (extractRecipeFromJsonLd doc) ∧
      r.ingredients = resolveIngredients doc (extractRecipeFromJsonLd doc) ∧
      r.title ≠ "" ∧ r.ingredients ≠ [] := by
  unfold scrapeRecipeFromUrl at h
  cases hu : normalizeRecipeUrl url with
  | error e =>
    rw [hu] at h
    exact absurd h (by simp [Bind.bind, Except.bind])
  | ok nu =>
    rw [hu] at h
    cases hf : fetchRecipeHtml env with
    | error e =>
      rw [hf] at h
      exact absurd h (by simp [Bind.bind, Except.bind])
    | ok doc =>
      rw [hf] at h
      simp only [Bind.bind, Except.bind] at h
      split at h
      · exact absurd h (by simp)
      next hcond =>
        have hr : r = ⟨resolveTitle doc (extractRecipeFromJsonLd doc),
            resolveIngredients doc (extractRecipeFromJsonLd doc), nu⟩ := by
          cases h
          rfl
        simp only [Bool.or_eq_true, not_or, decide_eq_true_eq] at hcond
        subst hr
        refine ⟨rfl, doc, rfl, rfl, ?_, ?_⟩
        · exact hcond.1
        · intro he
          exact hcond.2 (by simp [show resolveIngredients doc (extractRecipeFromJsonLd doc)
            = [] from he])

theorem findRecipeEntry_obj_recipe {fields : JsonLdRecipe}
    (h : isRecipeType (jsonGet fields ("@type")) = true) :
    findRecipeEntry (.obj fields) = some fields := by
  rw [findRecipeEntry, if_pos h]

theorem extractRecipeFromJsonLd_pancakes :
    extractRecipeFromJsonLd pancakesDoc = some pancakesFields := by
  have h2 : findRecipeEntry pancakesJson = some pancakesFields :=
    findRecipeEntry_obj_recipe (by decide)
  have h3 : (if jsFalsy pancakesJson = true then none else findRecipeEntry pancakesJson)
      = some pancakesFields := by
    rw [if_neg (by decide), h2]
  unfold extractRecipeFromJsonLd
  rw [show pancakesDoc.jsonLdScripts = [some pancakesJson] from rfl, List.findSome?_cons]
  simp only [h3]

/-! ## The claims -/

/-- C1: for every input URL whose page body is successfully fetched,
`scrapeRecipeFromUrl` throws the parse-failure classification
(`RecipeScrapeParseError`, status 422) if and only if the resolved
title is empty or the resolved ingredient list is empty after all
fallbacks; otherwise it returns the full record `{title, ingredients,
sourceUrl}` whose `sourceUrl` is the canonicalized input URL — for any
value of the redirect target — never a partial record. -/
theorem C1_parse_failure_iff_and_full_record
    (url nu : String) (status : Nat) (finalUrl : String) (doc : PageDoc)
    (hu : normalizeRecipeUrl url = .ok nu) :
    (scrapeRecipeFromUrl url (.response true status finalUrl (some doc)) =
        .error (RecipeScrapeParseError
          ("Unable to extract recipe title and ingredients from the provided URL.")) ↔
      (resolveTitle doc (extractRecipeFromJsonLd doc) = "" ∨
        resolveIngredients doc (extractRecipeFromJsonLd doc) = [])) ∧
    (resolveTitle doc (extractRecipeFromJsonLd doc) ≠ "" →
      resolveIngredients doc (extractRecipeFromJsonLd doc) ≠ [] →
      scrapeRecipeFromUrl url (.response true status finalUrl (some doc)) =
        .ok ⟨resolveTitle doc (extractRecipeFromJsonLd doc),
          resolveIngredients doc (extractRecipeFromJsonLd doc), nu⟩) := by
  rw [scrape_ok_env hu]
  constructor
  · constructor
    · intro h
      by_contra hno
      rw [not_or] at hno
      rw [if_neg (by simp [hno.1, hno.2])] at h
      exact absurd h (by simp)
    · intro h
      rw [if_pos]
      rcases h with h | h
      · simp [h]
      · simp [h]
  · intro h1 h2
    rw [if_neg (by simp [h1, h2])]

/-- Witness for C1 at the test page from the tests of the repo: the scrape succeeds and
returns exactly the structured data with the canonicalized URL, for a
redirect target different from the input. -/
theorem C1_witness :
    normalizeRecipeUrl ("https://example.com/recipe") = .ok ("https://example.com/recipe") ∧
    resolveTitle pancakesDoc (extractRecipeFromJsonLd pancakesDoc) ≠ "" ∧
    resolveIngredients pancakesDoc (extractRecipeFromJsonLd pancakesDoc) ≠ [] ∧
    scrapeRecipeFromUrl ("https://example.com/recipe")
        (.response true 200 ("https://cdn.example.org/final") (some pancakesDoc)) =
      .ok ⟨resolveTitle pancakesDoc (extractRecipeFromJsonLd pancakesDoc),
        resolveIngredients pancakesDoc (extractRecipeFromJsonLd pancakesDoc),
        ("https://example.com/recipe")⟩ := by
  have ht : resolveTitle pancakesDoc (extractRecipeFromJsonLd pancakesDoc) ≠ "" := by
    rw [extractRecipeFromJsonLd_pancakes]
    decide
  have hi : resolveIngredients pancakesDoc (extractRecipeFromJsonLd pancakesDoc) ≠ [] := by
    rw [extractRecipeFromJsonLd_pancakes]
    decide
  exact ⟨by decide, ht, hi,
    (C1_parse_failure_iff_and_full_record ("https://example.com/recipe")
      ("https://example.com/recipe") 200 ("https://cdn.example.org/final") pancakesDoc
      (by decide)).2 ht hi⟩

/-- C2: every input string that does not parse as an absolute URL with
an http or https scheme makes `scrapeRecipeFromUrl` fail with the
bad-request classification carrying status 400, with the same outcome
for every state of the network — the network step is never reached. -/
theorem C2_invalid_url_rejected_without_fetch (url : String)
    (h : (urlParse url).elim True fun u => u.protocol ≠ "http:" ∧ u.protocol ≠ "https:") :
    ∀ env : FetchOutcome, scrapeRecipeFromUrl url env =
      .error (RecipeScrapeRequestError ("Invalid recipe URL provided.") 400) := by
  intro env
  apply scrape_requestError
  have htry : normalizeRecipeUrlTry url = none := by
    unfold normalizeRecipeUrlTry
    split
    · rfl
    next u hu =>
      rw [hu] at h
      simp only [Option.elim] at h
      rw [if_pos (by simp [h.1, h.2])]
  unfold normalizeRecipeUrl
  rw [htry]

/-- Witness for C2: a string with no scheme at all is rejected with the
400 classification no matter what the network would have answered. -/
theorem C2_witness :
    ((urlParse ("notaurl")).elim True fun u =>
      u.protocol ≠ "http:" ∧ u.protocol ≠ "https:") ∧
    scrapeRecipeFromUrl ("notaurl") FetchOutcome.networkFailure =
      .error (RecipeScrapeRequestError ("Invalid recipe URL provided.") 400) :=
  ⟨by exact trivial,
    C2_invalid_url_rejected_without_fetch ("notaurl") (by exact trivial)
      FetchOutcome.networkFailure⟩

/-- C3: a non-success HTTP status `s` yields the request-failure
classification with status `s` when `400 ≤ s < 500` and 502 otherwise —
in particular 404 passes through and 500 is coerced to 502 — and a
transport failure yields the request-failure classification with
status 502. -/
theorem C3_fetch_failure_status_mapping :
    (∀ (s : Nat) (finalUrl : String) (body : Option PageDoc),
      fetchRecipeHtml (.response false s finalUrl body) =
        .error (RecipeScrapeRequestError
          ("Recipe request failed with status " ++ toString s ++ ".")
          (if 400 ≤ s && s < 500 then s else 502))) ∧
    fetchRecipeHtml .networkFailure =
      .error (RecipeScrapeRequestError ("Failed to fetch the remote recipe content.") 502) ∧
    fetchRecipeHtml (.response false 404 ("") none) =
      .error (RecipeScrapeRequestError ("Recipe request failed with status 404.") 404) ∧
    fetchRecipeHtml (.response false 500 ("") none) =
      .error (RecipeScrapeRequestError ("Recipe request failed with status 500.") 502) := by
  refine ⟨fun s finalUrl body => ?_, rfl, rfl, rfl⟩
  simp [fetchRecipeHtml]

/-- C4: the resolved title is the first candidate whose
whitespace-normalized form is non-empty, in the claimed order
(structured-data name, headline, title, og:title, twitter:title,
itemprop name, first h1, title tag), and the empty string when every
candidate normalizes to empty. -/
theorem C4_title_candidate_order :
    (∀ (doc : PageDoc) (r : Option JsonLdRecipe),
      resolveTitle doc r = firstNonEmptyClean (claimedTitleCandidates doc r)) ∧
    (∀ (doc : PageDoc) (r : Option JsonLdRecipe) (pre : List String) (c : String)
        (post : List String),
      claimedTitleCandidates doc r = pre ++ c :: post →
      (∀ d ∈ pre, cleanText d = "") → cleanText c ≠ "" →
      resolveTitle doc r = cleanText c) ∧
    (∀ (doc : PageDoc) (r : Option JsonLdRecipe),
      (∀ d ∈ claimedTitleCandidates doc r, cleanText d = "") →
      resolveTitle doc r = "") := by
  refine ⟨resolveTitle_eq_spec, ?_, ?_⟩
  · intro doc r pre c post hc hpre hne
    rw [resolveTitle_eq_spec, hc, firstNonEmptyClean_append_skip hpre,
      firstNonEmptyClean, if_neg hne]
  · intro doc r hall
    rw [resolveTitle_eq_spec]
    exact firstNonEmptyClean_all_empty hall

/-- Witness for C4: a page whose only non-empty candidate is the
twitter:title (preceded by the absent og:title contributing an empty
candidate); the resolved title is its whitespace-normalized text. -/
theorem C4_witness :
    claimedTitleCandidates titleDoc none = [""] ++ ("  Best   Soup  ") :: ["", "", ""] ∧
    (∀ d ∈ [""], cleanText d = "") ∧
    cleanText ("  Best   Soup  ") ≠ "" ∧
    resolveTitle titleDoc none = cleanText ("  Best   Soup  ") ∧
    resolveTitle titleDoc none = ("Best Soup") :=
  ⟨by decide, by decide, by decide,
    C4_title_candidate_order.2.1 titleDoc none [""] ("  Best   Soup  ") ["", "", ""]
      (by decide) (by decide) (by decide),
    by decide⟩

/-- C5 counterexample: the first selector of the fixed order matches an
element (whose text is pure whitespace), yet the loop does not stop
there — the returned list is the match of the third selector, so "stopping
at the first selector that yields at least one match" is false as
stated. -/
theorem C5_counterexample :
    ingredientSelectors.head? = some ("[itemprop=\x27recipeIngredient\x27]") ∧
    domDocC5.sel ("[itemprop=\x27recipeIngredient\x27]") = [("   ")] ∧
    extractIngredientsFromDom domDocC5 = [("1 egg")] ∧
    ("1 egg") ∉ (domDocC5.sel ("[itemprop=\x27recipeIngredient\x27]")).map cleanText :=
  ⟨rfl, rfl, by decide, by decide⟩

/-- C5 as amended: the DOM fallback is consulted only when the
structured-data ingredient list yields zero items, and it stops at the
first selector yielding at least one match with non-empty normalized
text, returning exactly those normalized texts and never merging
matches across selectors. -/
theorem C5_amended_first_nonempty_selector :
    (∀ (doc doc' : PageDoc) (r : Option JsonLdRecipe),
      structuredIngredients r ≠ [] →
        resolveIngredients doc r = resolveIngredients doc' r) ∧
    (∀ doc : PageDoc, extractIngredientsFromDom doc = domFallbackSpec doc) ∧
    (∀ (doc : PageDoc) (r : Option JsonLdRecipe),
      structuredIngredients r = [] →
        resolveIngredients doc r = firstSeenDedup (extractIngredientsFromDom doc)) := by
  refine ⟨?_, extractIngredientsFromDom_eq_spec, ?_⟩
  · intro doc doc' r hne
    rw [resolveIngredients_eq_dedup, resolveIngredients_eq_dedup]
    congr 1
    unfold ingredientSource
    rw [if_neg hne, if_neg hne]
  · intro doc r hz
    rw [resolveIngredients_eq_dedup]
    congr 1
    unfold ingredientSource
    rw [if_pos hz]

/-- Witness for the amended C5: with a non-empty structured ingredient
list the DOM (here: two pages with different selector matches) is never
consulted. -/
theorem C5_witness :
    structuredIngredients (some pancakesFields) ≠ [] ∧
    resolveIngredients blankDoc (some pancakesFields) =
      resolveIngredients domDocC5 (some pancakesFields) :=
  ⟨by decide,
    C5_amended_first_nonempty_selector.1 blankDoc domDocC5 (some pancakesFields) (by decide)⟩

/-- C6: the returned ingredient list is the first-seen deduplication of
the extracted list — each distinct cleaned string exactly once (the
count is 1 for members, 0 otherwise), as a sublist of the source (so in
first-occurrence order); and for a structured-data recipe with a name
and an ingredient list, extraction returns exactly that title and that
ingredient list in source order with duplicates removed. -/
theorem C6_dedup_first_seen_order :
    (∀ (doc : PageDoc) (r : Option JsonLdRecipe),
      resolveIngredients doc r = firstSeenDedup (ingredientSource doc r) ∧
      List.Sublist (resolveIngredients doc r) (ingredientSource doc r) ∧
      (∀ x, (resolveIngredients doc r).count x =
        if x ∈ ingredientSource doc r then 1 else 0)) ∧
    (∀ (url nu : String) (status : Nat) (finalUrl : String) (doc : PageDoc)
        (r : JsonLdRecipe),
      normalizeRecipeUrl url = .ok nu →
      extractRecipeFromJsonLd doc = some r →
      cleanText (strField r ("name")) ≠ "" →
      normalizeIngredientList (rawIngredientValue r) ≠ [] →
      scrapeRecipeFromUrl url (.response true status finalUrl (some doc)) =
        .ok ⟨cleanText (strField r ("name")),
          firstSeenDedup (normalizeIngredientList (rawIngredientValue r)), nu⟩) := by
  constructor
  · intro doc r
    refine ⟨resolveIngredients_eq_dedup doc r, ?_, ?_⟩
    · rw [resolveIngredients_eq_dedup]
      exact firstSeenDedup_sublist _
    · intro x
      rw [resolveIngredients_eq_dedup]
      exact count_firstSeenDedup _ x
  · intro url nu status finalUrl doc r hu hrec hname hing
    have htitle : resolveTitle doc (extractRecipeFromJsonLd doc)
        = cleanText (strField r ("name")) := by
      rw [hrec, resolveTitle_eq_spec]
      rw [show claimedTitleCandidates doc (some r)
          = strField r ("name") :: (strField r ("headline") :: strField r ("title") ::
            [doc.ogTitle.getD (""), doc.twitterTitle.getD (""), doc.itempropName, doc.h1,
              doc.titleTag]) from rfl]
      rw [firstNonEmptyClean, if_neg hname]
    have hing2 : resolveIngredients doc (extractRecipeFromJsonLd doc)
        = firstSeenDedup (normalizeIngredientList (rawIngredientValue r)) := by
      rw [hrec, resolveIngredients_eq_dedup]
      congr 1
      unfold ingredientSource structuredIngredients
      rw [if_neg hing]
    have hfsd_ne : firstSeenDedup (normalizeIngredientList (rawIngredientValue r)) ≠ [] :=
      fun h => hing ((firstSeenDedup_eq_nil_iff _).mp h)
    rw [scrape_ok_env hu, htitle, hing2,
      if_neg (by simp [hname, List.length_eq_zero, hfsd_ne])]

/-- Witness for C6 at a structured page with a duplicated ingredient:
the duplicate is dropped, first-seen order kept, and the full scrape
returns exactly the structured title and the deduplicated list. -/
theorem C6_witness :
    extractRecipeFromJsonLd pancakesDoc = some pancakesFields ∧
    cleanText (strField pancakesFields ("name")) ≠ "" ∧
    normalizeIngredientList (rawIngredientValue pancakesFields) =
      [("1 cup flour"), ("2 eggs"), ("1 cup flour")] ∧
    firstSeenDedup (normalizeIngredientList (rawIngredientValue pancakesFields)) =
      [("1 cup flour"), ("2 eggs")] ∧
    scrapeRecipeFromUrl ("https://example.com/recipe")
        (.response true 200 ("") (some pancakesDoc)) =
      .ok ⟨cleanText (strField pancakesFields ("name")),
        firstSeenDedup (normalizeIngredientList (rawIngredientValue pancakesFields)),
        ("https://example.com/recipe")⟩ := by
  have hfsd : firstSeenDedup (normalizeIngredientList (rawIngredientValue pancakesFields))
      = [("1 cup flour"), ("2 eggs")] := by
    rw [← foldl_setAdd_nil]
    decide
  exact ⟨extractRecipeFromJsonLd_pancakes, by decide, by decide, hfsd,
    C6_dedup_first_seen_order.2 ("https://example.com/recipe") ("https://example.com/recipe")
      200 ("") pancakesDoc pancakesFields (by decide) extractRecipeFromJsonLd_pancakes
      (by decide) (by decide)⟩

/-- C7: every record the extractor returns, passed as the `recipe`
field to the validator of the save endpoint, is accepted, and the validated
payload is the record unchanged — trimming is the identity on the
already-normalized title, ingredients and canonicalized source URL. -/
theorem C7_round_trip_extractor_validator (url : String) (env : FetchOutcome)
    (r : RecipeScrapeResult) (h : scrapeRecipeFromUrl url env = .ok r) :
    validateRecipePayload (some (recipeAsJson r)) = .valid r := by
  obtain ⟨hu, doc, ht, hi, htne, hine⟩ := scrape_ok_inv h
  have hres : r.title = firstNonEmptyClean
      (claimedTitleCandidates doc (extractRecipeFromJsonLd doc)) := by
    rw [ht, resolveTitle_eq_spec]
  have htitle_clean : trimS r.title = r.title := by
    rcases firstNonEmptyClean_shape
        (claimedTitleCandidates doc (extractRecipeFromJsonLd doc)) with hsh | ⟨c, hsh⟩
    · exact absurd (hres.trans hsh) htne
    · rw [hres, hsh]
      exact trimS_cleanText c
  have htlen : (trimS r.title).length > 0 := by
    rw [htitle_clean]
    exact string_length_pos htne
  have hing_each : ∀ s ∈ r.ingredients, trimS s = s ∧ (trimS s).length > 0 := by
    intro s hs
    rw [hi] at hs
    obtain ⟨⟨s', hs'⟩, hlen⟩ := mem_resolveIngredients hs
    have h1 : trimS s = s := by
      rw [hs']
      exact trimS_cleanText s'
    exact ⟨h1, by rw [h1]; exact hlen⟩
  obtain ⟨hurl_trim, hurl_len⟩ := normalizeRecipeUrl_trim hu
  have hstrarr : isStringArray (r.ingredients.map .str) = true := by
    rw [isStringArray, List.all_eq_true]
    intro entry hentry
    rw [List.mem_map] at hentry
    obtain ⟨s, hs, rfl⟩ := hentry
    simpa using (hing_each s hs).2
  have hmap : (r.ingredients.map JsonValue.str).map
      (fun i => match i with | .str s => trimS s | _ => "") = r.ingredients := by
    rw [List.map_map]
    show List.map (fun s => trimS s) r.ingredients = r.ingredients
    have h2 : List.map (fun s => trimS s) r.ingredients = List.map id r.ingredients :=
      List.map_congr_left fun a ha => (hing_each a ha).1
    rw [h2, List.map_id]
  have hval : validateRecipePayload (some (recipeAsJson r)) =
      if (!decide ((trimS r.title).length > 0)
          || !decide ((trimS r.sourceUrl).length > 0)) = true then
        .invalid ("The `recipe` field must include non-empty title, ingredients[], and sourceUrl values.")
      else if (!isStringArray (r.ingredients.map JsonValue.str)) = true then
        .invalid ("All ingredients must be strings.")
      else
        .valid ⟨trimS r.title,
          (r.ingredients.map JsonValue.str).map
            (fun i => match i with | JsonValue.str s => trimS s | _ => ""),
          trimS r.sourceUrl⟩ := rfl
  rw [hval, if_neg (by simp [htlen, hurl_trim]; omega), if_neg (by simp [hstrarr]),
    htitle_clean, hurl_trim, hmap]

/-- Witness for C7: the record scraped from the structured test page is
accepted unchanged by the save validator. -/
theorem C7_witness :
    scrapeRecipeFromUrl ("https://example.com/recipe")
        (.response true 200 ("") (some pancakesDoc)) =
      .ok ⟨("Test Pancakes"), [("1 cup flour"), ("2 eggs")], ("https://example.com/recipe")⟩ ∧
    validateRecipePayload (some (recipeAsJson
        ⟨("Test Pancakes"), [("1 cup flour"), ("2 eggs")], ("https://example.com/recipe")⟩)) =
      .valid ⟨("Test Pancakes"), [("1 cup flour"), ("2 eggs")],
        ("https://example.com/recipe")⟩ := by
  have hs : scrapeRecipeFromUrl ("https://example.com/recipe")
      (.response true 200 ("") (some pancakesDoc)) =
      .ok ⟨("Test Pancakes"), [("1 cup flour"), ("2 eggs")],
        ("https://example.com/recipe")⟩ := by
    rw [@scrape_ok_env ("https://example.com/recipe") ("https://example.com/recipe") 200 ("")
      pancakesDoc (by decide), extractRecipeFromJsonLd_pancakes]
    decide
  exact ⟨hs, C7_round_trip_extractor_validator _ _ _ hs⟩

/-- C8: a blank (empty or whitespace-only) query makes `searchRecipes`
return the empty result list without issuing any store request, and a
non-blank query is escaped before being embedded in the GraphQL query
string — the embedded text is safely escaped (no unescaped quote and no
raw newline). -/
theorem C8_blank_query_short_circuit :
    (∀ (q : String) (α : Type) (net : String → List α),
      trimS q = "" → searchRecipes q net = [] ∧ searchRecipesRequest q = none) ∧
    (∀ q : String, trimS q ≠ "" →
      searchRecipesRequest q =
        some (searchQueryHead ++ escapeGraphQLString (trimS q) ++ searchQueryTail) ∧
      gqlStringSafe (escapeGraphQLString (trimS q)).data = true) := by
  constructor
  · intro q α net hq
    constructor
    · simp [searchRecipes, searchRecipesRequest, hq]
    · simp [searchRecipesRequest, hq]
  · intro q hq
    refine ⟨?_, gqlStringSafe_escape _⟩
    simp [searchRecipesRequest, searchGraphQLBody, hq]

/-- Witness for C8: a whitespace-only query yields no request and an
empty result for an arbitrary network behaviour; a query containing a
quote gets it escaped in the request body. -/
theorem C8_witness :
    trimS ("   ") = "" ∧
    searchRecipes ("   ") (fun _ => ([1] : List Nat)) = [] ∧
    searchRecipesRequest ("   ") = none ∧
    trimS ("pie \"au\" rhum") ≠ "" ∧
    searchRecipesRequest ("pie \"au\" rhum") =
      some (searchQueryHead ++ escapeGraphQLString (trimS ("pie \"au\" rhum"))
        ++ searchQueryTail) := by
  have h1 := C8_blank_query_short_circuit.1 ("   ") Nat (fun _ => [1]) (by decide)
  have h2 := C8_blank_query_short_circuit.2 ("pie \"au\" rhum") (by decide)
  exact ⟨by decide, h1.1, h1.2, by decide, h2.1⟩

/-- C9 counterexample: an input-validation failure and an upstream-fetch
failure with upstream status 400 produce errors with the same
classification (same error class, same carried status) and differ only
in their message strings, so the three failure kinds are not each a
distinct classification. -/
theorem C9_counterexample :
    scrapeRecipeFromUrl ("notaurl") FetchOutcome.networkFailure =
      .error (RecipeScrapeRequestError ("Invalid recipe URL provided.") 400) ∧
    scrapeRecipeFromUrl ("http://example.com/") (.response false 400 ("") none) =
      .error (RecipeScrapeRequestError ("Recipe request failed with status 400.") 400) ∧
    errKind (RecipeScrapeRequestError ("Invalid recipe URL provided.") 400) =
      errKind (RecipeScrapeRequestError ("Recipe request failed with status 400.") 400) ∧
    RecipeScrapeRequestError ("Invalid recipe URL provided.") 400 ≠
      RecipeScrapeRequestError ("Recipe request failed with status 400.") 400 :=
  ⟨by decide, by decide, rfl, by decide⟩

/-- C9 as amended: the extractor has two distinct classifications —
parse failures (a distinct class, status 422) versus request failures
(covering both input-validation, always status 400, and upstream-fetch,
which never produces the parse class) — and the route handler chooses
the HTTP status from the carried status of the error without reading the
message. -/
theorem C9_amended_two_classifications :
    (∀ (m m' : String) (s s' : Nat),
      errKind (ScrapeError.parseError m s) ≠ errKind (ScrapeError.requestError m' s')) ∧
    (∀ e : ScrapeError, scrapeRouteRespond (.error e) = (e.status, some e.message)) ∧
    (∀ (url : String) (e : ScrapeError),
      normalizeRecipeUrl url = .error e → errKind e = (false, 400)) ∧
    (∀ (env : FetchOutcome) (e : ScrapeError),
      fetchRecipeHtml env = .error e → (errKind e).1 = false) ∧
    (∀ m : String, errKind (RecipeScrapeParseError m) = (true, 422)) := by
  refine ⟨?_, ?_, ?_, ?_, fun m => rfl⟩
  · intro m m' s s' h
    simp [errKind, ScrapeError.status] at h
  · intro e
    cases e <;> rfl
  · intro url e h
    unfold normalizeRecipeUrl at h
    split at h
    · exact absurd h (by simp)
    · cases h
      rfl
  · intro env e h
    cases env with
    | networkFailure =>
      rw [show fetchRecipeHtml FetchOutcome.networkFailure =
        .error (RecipeScrapeRequestError ("Failed to fetch the remote recipe content.") 502)
        from rfl] at h
      cases h
      rfl
    | response ok status finalUrl body =>
      cases ok with
      | false =>
        rw [show fetchRecipeHtml (FetchOutcome.response false status finalUrl body) =
          .error (RecipeScrapeRequestError
            ("Recipe request failed with status " ++ toString status ++ ".")
            (if (decide (400 ≤ status) && decide (status < 500)) = true then status else 502))
          from rfl] at h
        cases h
        rfl
      | true =>
        cases body with
        | none =>
          rw [show fetchRecipeHtml (FetchOutcome.response true status finalUrl none) =
            .error (RecipeScrapeRequestError ("Unable to read the recipe response body.") 502)
            from rfl] at h
          cases h
          rfl
        | some doc =>
          rw [show fetchRecipeHtml (FetchOutcome.response true status finalUrl (some doc)) =
            .ok doc from rfl] at h
          exact absurd h (by simp)

/-- Witness for the amended C9: a concrete validation failure carries
the request classification with status 400, and the route handler
forwards that status. -/
theorem C9_witness :
    normalizeRecipeUrl ("notaurl") =
      .error (RecipeScrapeRequestError ("Invalid recipe URL provided.") 400) ∧
    errKind (RecipeScrapeRequestError ("Invalid recipe URL provided.") 400) = (false, 400) ∧
    scrapeRouteRespond (.error (RecipeScrapeRequestError ("Invalid recipe URL provided.") 400)) =
      (400, some ("Invalid recipe URL provided.")) :=
  ⟨by decide,
    C9_amended_two_classifications.2.2.1 ("notaurl") _ (by decide),
    C9_amended_two_classifications.2.1 (RecipeScrapeRequestError ("Invalid recipe URL provided.") 400)⟩

/-- C10: the validator of the save endpoint accepts a recipe whose
ingredients field is the empty array — any object with
non-empty-after-trim title and sourceUrl strings and `ingredients: []`
validates, and the handler forwards the record to the store — so the
save interface does not enforce the at-least-one-ingredient
invariant. -/
theorem C10_save_accepts_empty_ingredients (title sourceUrl : String)
    (ht : (trimS title).length > 0) (hu : (trimS sourceUrl).length > 0) :
    saveRoutePOST (.obj [(("recipe"), .obj [(("title"), .str title),
        (("ingredients"), .arr []), (("sourceUrl"), .str sourceUrl)])]) =
      .forward ⟨trimS title, [], trimS sourceUrl⟩ := by
  have hval : saveRoutePOST (.obj [(("recipe"), .obj [(("title"), .str title),
      (("ingredients"), .arr []), (("sourceUrl"), .str sourceUrl)])]) =
      (match (if (!decide ((trimS title).length > 0)
            || !decide ((trimS sourceUrl).length > 0)) = true then
          PayloadValidationResult.invalid
            ("The `recipe` field must include non-empty title, ingredients[], and sourceUrl values.")
        else
          PayloadValidationResult.valid ⟨trimS title, [], trimS sourceUrl⟩) with
       | .invalid m => SaveRouteAction.reject 400 m
       | .valid r => SaveRouteAction.forward r) := rfl
  rw [hval, if_neg (by simp [ht, hu])]

/-- Witness for C10: a concrete recipe with zero ingredients passes
validation and is forwarded to the store. -/
theorem C10_witness :
    (trimS ("My Recipe")).length > 0 ∧
    (trimS ("https://example.com/r")).length > 0 ∧
    saveRoutePOST (.obj [(("recipe"), .obj [(("title"), .str ("My Recipe")),
        (("ingredients"), .arr []), (("sourceUrl"), .str ("https://example.com/r"))])]) =
      .forward ⟨trimS ("My Recipe"), [], trimS ("https://example.com/r")⟩ :=
  ⟨by decide, by decide,
    C10_save_accepts_empty_ingredients ("My Recipe") ("https://example.com/r")
      (by decide) (by decide)⟩

end GitRecipes
